import Mathlib

/-!
# Verification of the validation_tool annotation editor and point-cloud decoder

Shallow embedding of the frontend code of the repository
(src/frontend/app.js and src/frontend/pointcloud.js) and proofs of the
specified properties.

Modelling conventions:
* JavaScript numbers are modelled as exact rationals (ℚ); the floating-point
  rounding of the host is outside the model.
* Byte buffers (Uint8Array) are modelled as lists of natural numbers.
* Object references are modelled by (kind, id) pairs; reference equality
  coincides with id equality whenever ids are distinct, which the theorems
  assume where it matters.
* DOM reads (input fields, element sizes) are passed as explicit parameters.
-/

namespace VTool

/-! ## Coordinate mapper (app.js: getVideoDisplayRect / displayToActual /
actualToDisplay)

The mapper state consists of the rendered container size
(videoPlayer.offsetWidth/offsetHeight) and the natural media size
(videoNaturalWidth/videoNaturalHeight); all four are passed explicitly. -/

/-- The rectangle returned by getVideoDisplayRect in app.js. -/
structure DisplayRect where
  x : ℚ
  y : ℚ
  width : ℚ
  height : ℚ
  scaleX : ℚ
  scaleY : ℚ
deriving DecidableEq, Repr

/-- app.js getVideoDisplayRect: the letterboxed display rectangle of an
aspect-preserving contain fit, with the degenerate guard for an unknown
natural size. -/
def getVideoDisplayRect (cw ch nw nh : ℚ) : DisplayRect :=
  if nw = 0 ∨ nh = 0 then
    { x := 0, y := 0, width := cw, height := ch, scaleX := 1, scaleY := 1 }
  else
    let videoAspect := nw / nh
    let containerAspect := cw / ch
    if containerAspect < videoAspect then
      -- video is wider: width-bound
      let displayWidth := cw
      let displayHeight := cw / videoAspect
      { x := 0, y := (ch - displayHeight) / 2,
        width := displayWidth, height := displayHeight,
        scaleX := displayWidth / nw, scaleY := displayHeight / nh }
    else
      -- video is taller: height-bound
      let displayWidth := ch * videoAspect
      let displayHeight := ch
      { x := (cw - displayWidth) / 2, y := 0,
        width := displayWidth, height := displayHeight,
        scaleX := displayWidth / nw, scaleY := displayHeight / nh }

/-- app.js displayToActual: display coordinates to natural coordinates,
with the degenerate identity guard and the final clamp into
[0, naturalWidth] × [0, naturalHeight]. -/
def displayToActual (cw ch nw nh dx dy : ℚ) : ℚ × ℚ :=
  if nw = 0 ∨ nh = 0 then (dx, dy)
  else
    let rect := getVideoDisplayRect cw ch nw nh
    let relativeX := dx - rect.x
    let relativeY := dy - rect.y
    let actualX := relativeX / rect.scaleX
    let actualY := relativeY / rect.scaleY
    (max 0 (min nw actualX), max 0 (min nh actualY))

/-- app.js actualToDisplay: natural coordinates to display coordinates,
with the degenerate identity guard and no clamping. -/
def actualToDisplay (cw ch nw nh ax ay : ℚ) : ℚ × ℚ :=
  if nw = 0 ∨ nh = 0 then (ax, ay)
  else
    let rect := getVideoDisplayRect cw ch nw nh
    (ax * rect.scaleX + rect.x, ay * rect.scaleY + rect.y)

/-! Basic facts about the display rectangle under positive sizes. -/

lemma getVideoDisplayRect_scaleX_pos {cw ch nw nh : ℚ}
    (hcw : 0 < cw) (hch : 0 < ch) (hnw : 0 < nw) (hnh : 0 < nh) :
    0 < (getVideoDisplayRect cw ch nw nh).scaleX := by
  unfold getVideoDisplayRect
  rw [if_neg (by push_neg; exact ⟨ne_of_gt hnw, ne_of_gt hnh⟩)]
  dsimp only
  split
  · exact div_pos hcw hnw
  · exact div_pos (mul_pos hch (div_pos hnw hnh)) hnw

lemma getVideoDisplayRect_scaleY_pos {cw ch nw nh : ℚ}
    (hcw : 0 < cw) (hch : 0 < ch) (hnw : 0 < nw) (hnh : 0 < nh) :
    0 < (getVideoDisplayRect cw ch nw nh).scaleY := by
  unfold getVideoDisplayRect
  rw [if_neg (by push_neg; exact ⟨ne_of_gt hnw, ne_of_gt hnh⟩)]
  dsimp only
  split
  · exact div_pos (div_pos hcw (div_pos hnw hnh)) hnh
  · exact div_pos hch hnh

lemma getVideoDisplayRect_width_eq {cw ch nw nh : ℚ}
    (hnw : 0 < nw) (hnh : 0 < nh) :
    (getVideoDisplayRect cw ch nw nh).width =
      (getVideoDisplayRect cw ch nw nh).scaleX * nw := by
  unfold getVideoDisplayRect
  rw [if_neg (by push_neg; exact ⟨ne_of_gt hnw, ne_of_gt hnh⟩)]
  dsimp only
  split <;> rw [div_mul_cancel₀ _ (ne_of_gt hnw)]

lemma getVideoDisplayRect_height_eq {cw ch nw nh : ℚ}
    (hnw : 0 < nw) (hnh : 0 < nh) :
    (getVideoDisplayRect cw ch nw nh).height =
      (getVideoDisplayRect cw ch nw nh).scaleY * nh := by
  unfold getVideoDisplayRect
  rw [if_neg (by push_neg; exact ⟨ne_of_gt hnw, ne_of_gt hnh⟩)]
  dsimp only
  split <;> rw [div_mul_cancel₀ _ (ne_of_gt hnh)]

/-- One axis of the round trip: subtracting the offset, dividing by a
positive scale, clamping into [0, n] and mapping back is the identity for
inputs inside [o, o + s * n]. -/
lemma axis_roundtrip {s o n v : ℚ} (hs : 0 < s)
    (hlo : o ≤ v) (hhi : v ≤ o + s * n) :
    (max 0 (min n ((v - o) / s))) * s + o = v := by
  have h0 : 0 ≤ (v - o) / s := div_nonneg (by linarith) (le_of_lt hs)
  have hn : (v - o) / s ≤ n := by
    rw [div_le_iff₀ hs]
    nlinarith
  rw [min_eq_right hn, max_eq_right h0, div_mul_cancel₀ _ (ne_of_gt hs)]
  ring

lemma not_deg {nw nh : ℚ} (hnw : 0 < nw) (hnh : 0 < nh) : ¬(nw = 0 ∨ nh = 0) := by
  push_neg; exact ⟨ne_of_gt hnw, ne_of_gt hnh⟩

/-- C1: for positive container and natural sizes, converting a display point
inside the letterboxed display rectangle to natural space and back returns
exactly that point (the forward clamp is inactive inside the rectangle). -/
theorem roundtrip_display_natural (cw ch nw nh dx dy : ℚ)
    (hcw : 0 < cw) (hch : 0 < ch) (hnw : 0 < nw) (hnh : 0 < nh)
    (hx1 : (getVideoDisplayRect cw ch nw nh).x ≤ dx)
    (hx2 : dx ≤ (getVideoDisplayRect cw ch nw nh).x +
      (getVideoDisplayRect cw ch nw nh).width)
    (hy1 : (getVideoDisplayRect cw ch nw nh).y ≤ dy)
    (hy2 : dy ≤ (getVideoDisplayRect cw ch nw nh).y +
      (getVideoDisplayRect cw ch nw nh).height) :
    actualToDisplay cw ch nw nh
      (displayToActual cw ch nw nh dx dy).1
      (displayToActual cw ch nw nh dx dy).2 = (dx, dy) := by
  have hne := not_deg hnw hnh
  have hsx := getVideoDisplayRect_scaleX_pos hcw hch hnw hnh
  have hsy := getVideoDisplayRect_scaleY_pos hcw hch hnw hnh
  have hw := @getVideoDisplayRect_width_eq cw ch nw nh hnw hnh
  have hh := @getVideoDisplayRect_height_eq cw ch nw nh hnw hnh
  unfold displayToActual actualToDisplay
  rw [if_neg hne, if_neg hne]
  dsimp only
  rw [hw] at hx2
  rw [hh] at hy2
  refine Prod.ext ?_ ?_
  · exact axis_roundtrip hsx hx1 (by linarith)
  · exact axis_roundtrip hsy hy1 (by linarith)

/-- C1 witness: a concrete instance of the round trip. -/
theorem roundtrip_display_natural_witness :
    actualToDisplay 800 600 1600 900
      (displayToActual 800 600 1600 900 400 300).1
      (displayToActual 800 600 1600 900 400 300).2 = (400, 300) :=
  roundtrip_display_natural 800 600 1600 900 400 300
    (by norm_num) (by norm_num) (by norm_num) (by norm_num)
    (by norm_num [getVideoDisplayRect]) (by norm_num [getVideoDisplayRect])
    (by norm_num [getVideoDisplayRect]) (by norm_num [getVideoDisplayRect])

/-- C9: when the natural media size is unknown (either component is 0),
both coordinate conversions are the identity and the display rectangle has
scale 1 and offset 0, so no division is reached. -/
theorem degenerate_mapper_identity (cw ch nw nh x y : ℚ)
    (hdeg : nw = 0 ∨ nh = 0) :
    displayToActual cw ch nw nh x y = (x, y) ∧
    actualToDisplay cw ch nw nh x y = (x, y) ∧
    getVideoDisplayRect cw ch nw nh =
      { x := 0, y := 0, width := cw, height := ch, scaleX := 1, scaleY := 1 } := by
  refine ⟨?_, ?_, ?_⟩ <;>
    simp only [displayToActual, actualToDisplay, getVideoDisplayRect, if_pos hdeg]

/-- C9 witness: the identity mapping at a concrete degenerate size. -/
theorem degenerate_mapper_identity_witness :
    displayToActual 800 600 0 900 123 45 = (123, 45) ∧
    actualToDisplay 800 600 0 900 123 45 = (123, 45) ∧
    getVideoDisplayRect 800 600 0 900 =
      { x := 0, y := 0, width := 800, height := 600, scaleX := 1, scaleY := 1 } :=
  degenerate_mapper_identity 800 600 0 900 123 45 (Or.inl rfl)

/-! ## Geometry hit testing (app.js: pointToLineDistance) -/

/-- Squared Euclidean distance from (px, py) to the segment (x1,y1)-(x2,y2),
following app.js pointToLineDistance.  The source returns
Math.sqrt(dx*dx + dy*dy); the embedding keeps the square so as to stay in ℚ,
and every source comparison (distance ≤ t, with t ≥ 0) is embedded as
(distSq ≤ t^2), which is equivalent. -/
def pointToLineDistanceSq (px py x1 y1 x2 y2 : ℚ) : ℚ :=
  let A := px - x1
  let B := py - y1
  let C := x2 - x1
  let D := y2 - y1
  let dot := A * C + B * D
  let lenSq := C * C + D * D
  let param := if lenSq ≠ 0 then dot / lenSq else -1
  let xx := if param < 0 then x1 else if 1 < param then x2 else x1 + param * C
  let yy := if param < 0 then y1 else if 1 < param then y2 else y1 + param * D
  let dx := px - xx
  let dy := py - yy
  dx * dx + dy * dy

/-! ## Annotation data model (app.js globals)

Lanes and triggers are objects with id, type, number (lanes only), name,
color, width and a point list in natural space.  Ids are Date.now() values
in the source; the model takes fresh ids as parameters. -/

inductive AnnKind where
  | lane
  | trigger
deriving DecidableEq, Repr

/-- A lane or trigger object.  The number field is only meaningful for
lanes (triggers never read it; the model stores 0 there). -/
structure Annot where
  id : ℕ
  kind : AnnKind
  number : ℕ
  name : String
  color : String
  width : ℚ
  points : List (ℚ × ℚ)
deriving DecidableEq, Repr

/-- A selection reference: which collection the selected object lives in
plus its id.  JavaScript reference equality is modelled as (kind, id)
equality; the two coincide whenever ids are distinct across the two
collections, which the theorems assume where it matters. -/
structure SelRef where
  kind : AnnKind
  id : ℕ
deriving DecidableEq, Repr

/-- The DOM input fields read by startDrawing, already parsed
(parseInt and the non-name value fallbacks are resolved by the
environment); the name fallback, which the source applies with a
JavaScript or-expression, is kept explicit in the model. -/
structure Inputs where
  laneWidth : ℚ
  laneColor : String
  triggerWidth : ℚ
  triggerColor : String
  triggerName : String
deriving DecidableEq, Repr

/-- The mutable editor state of app.js: container size, natural video size,
active tool, the two collections, the selection and the in-progress
references (stored as ids). -/
structure EditorState where
  cw : ℚ
  ch : ℚ
  nw : ℚ
  nh : ℚ
  currentTool : AnnKind
  lanes : List Annot
  triggers : List Annot
  selected : Option SelRef
  currentLane : Option ℕ
  currentTrigger : Option ℕ
deriving DecidableEq, Repr

def toDisplayPt (s : EditorState) (p : ℚ × ℚ) : ℚ × ℚ :=
  actualToDisplay s.cw s.ch s.nw s.nh p.1 p.2

def toActualPt (s : EditorState) (p : ℚ × ℚ) : ℚ × ℚ :=
  displayToActual s.cw s.ch s.nw s.nh p.1 p.2

/-- allItems = [...lanes, ...triggers], tagged with the collection each
object comes from. -/
def taggedItems (s : EditorState) : List (AnnKind × Annot) :=
  s.lanes.map (fun a => (AnnKind.lane, a)) ++
    s.triggers.map (fun a => (AnnKind.trigger, a))

/-- app.js checkControlPointClick inner test: some vertex of the item is
within display distance 10 of the click (squared: 100). -/
def hitsControlPoint (s : EditorState) (x y : ℚ) (item : Annot) : Bool :=
  item.points.any fun p =>
    let d := toDisplayPt s p
    (x - d.1) * (x - d.1) + (y - d.2) * (y - d.2) ≤ 100

/-- app.js checkControlPointClick: first item (lanes then triggers) with a
vertex within radius 10 of the click; returns the selection it makes. -/
def checkControlPointClick (s : EditorState) (x y : ℚ) : Option SelRef :=
  ((taggedItems s).find? fun it => hitsControlPoint s x y it.2).map
    fun it => ⟨it.1, it.2.id⟩

/-- app.js checkLineClick inner test: the item has ≥ 2 points and some
consecutive display-space segment is within distance 10 of the click
(squared: 100).  The threshold is the fixed constant 10 of the source,
independent of the item width. -/
def hitsSegment (s : EditorState) (x y : ℚ) (item : Annot) : Bool :=
  decide (2 ≤ item.points.length) &&
    (List.range (item.points.length - 1)).any fun i =>
      let p1 := toDisplayPt s (item.points.getD i (0, 0))
      let p2 := toDisplayPt s (item.points.getD (i + 1) (0, 0))
      pointToLineDistanceSq x y p1.1 p1.2 p2.1 p2.2 ≤ 100

/-- app.js checkLineClick: first item (lanes then triggers) with a segment
within the fixed threshold of the click. -/
def checkLineClick (s : EditorState) (x y : ℚ) : Option SelRef :=
  ((taggedItems s).find? fun it => hitsSegment s x y it.2).map
    fun it => ⟨it.1, it.2.id⟩

/-! ## Drawing state machine (app.js: startDrawing / draw /
completeDrawing / mousedown handler / setTool / deleteLane / deleteTrigger) -/

/-- Mutation through the in-progress reference: under unique ids this is
exactly the JavaScript in-place mutation of the referenced object. -/
def updateById (l : List Annot) (id : ℕ) (f : Annot → Annot) : List Annot :=
  l.map fun a => if a.id = id then f a else a

/-- Fix the preview point (overwrite the last entry) and push a fresh
preview point, as in the in-progress branches of startDrawing. -/
def fixPreviewAndPush (pts : List (ℚ × ℚ)) (a : ℚ × ℚ) : List (ℚ × ℚ) :=
  pts.set (pts.length - 1) a ++ [a]

/-- app.js startDrawing (primary click path): extend the in-progress
annotation if one exists (regardless of the active tool), otherwise create
a new annotation of the active tool kind with [clickPoint, previewPoint]. -/
def startDrawing (inp : Inputs) (newId : ℕ) (s : EditorState) (x y : ℚ) :
    EditorState :=
  let actualPoint := toActualPt s (x, y)
  match s.currentLane with
  | some lid =>
      { s with
        lanes := updateById s.lanes lid fun a =>
          { a with points := fixPreviewAndPush a.points actualPoint },
        selected := some ⟨AnnKind.lane, lid⟩ }
  | none =>
    match s.currentTrigger with
    | some tid =>
        { s with
          triggers := updateById s.triggers tid fun a =>
            { a with points := fixPreviewAndPush a.points actualPoint },
          selected := some ⟨AnnKind.trigger, tid⟩ }
    | none =>
      match s.currentTool with
      | AnnKind.lane =>
          let newLane : Annot :=
            { id := newId, kind := AnnKind.lane, number := s.lanes.length + 1,
              name := "车道" ++ toString (s.lanes.length + 1),
              color := inp.laneColor, width := inp.laneWidth,
              points := [actualPoint, actualPoint] }
          { s with lanes := s.lanes ++ [newLane],
                   selected := some ⟨AnnKind.lane, newId⟩,
                   currentLane := some newId }
      | AnnKind.trigger =>
          let newTrigger : Annot :=
            { id := newId, kind := AnnKind.trigger, number := 0,
              name := if inp.triggerName = "" then
                  "触发线" ++ toString (s.triggers.length + 1)
                else inp.triggerName,
              color := inp.triggerColor, width := inp.triggerWidth,
              points := [actualPoint, actualPoint] }
          { s with triggers := s.triggers ++ [newTrigger],
                   selected := some ⟨AnnKind.trigger, newId⟩,
                   currentTrigger := some newId }

/-- app.js draw (mousemove): when drawing, overwrite the preview point
(last entry) of the in-progress annotation; otherwise no state change. -/
def draw (s : EditorState) (x y : ℚ) : EditorState :=
  if s.currentLane = none ∧ s.currentTrigger = none then s
  else
    let a := toActualPt s (x, y)
    match s.currentLane with
    | some lid =>
        { s with lanes := updateById s.lanes lid fun an =>
            if 1 ≤ an.points.length then
              { an with points := an.points.set (an.points.length - 1) a }
            else an }
    | none =>
      match s.currentTrigger with
      | some tid =>
          { s with triggers := updateById s.triggers tid fun an =>
              if 1 ≤ an.points.length then
                { an with points := an.points.set (an.points.length - 1) a }
              else an }
      | none => s

/-- findIndex by id followed by splice(idx, 1), as in completeDrawing. -/
def removeFirstById (l : List Annot) (id : ℕ) : List Annot :=
  match l.findIdx? (fun x => x.id = id) with
  | some idx => l.eraseIdx idx
  | none => l

/-- The lane half of app.js completeDrawing: pop the preview point when
the in-progress lane has ≥ 2 points; if fewer than 2 remain, remove it
from lanes and clear a selection whose id matches; clear the in-progress
reference either way. -/
def completeLane (s : EditorState) (lid : ℕ) : EditorState :=
  match s.lanes.find? (fun a => a.id = lid) with
  | none => { s with currentLane := none }
  | some obj =>
      let obj1 := if 2 ≤ obj.points.length then
          { obj with points := obj.points.dropLast }
        else obj
      let lanes1 := updateById s.lanes lid fun _ => obj1
      if obj1.points.length < 2 then
        { s with lanes := removeFirstById lanes1 lid,
                 selected := if s.selected.any (fun r => r.id = lid) then none
                   else s.selected,
                 currentLane := none }
      else { s with lanes := lanes1, currentLane := none }

/-- The trigger half of app.js completeDrawing, symmetric to
completeLane. -/
def completeTrigger (s : EditorState) (tid : ℕ) : EditorState :=
  match s.triggers.find? (fun a => a.id = tid) with
  | none => { s with currentTrigger := none }
  | some obj =>
      let obj1 := if 2 ≤ obj.points.length then
          { obj with points := obj.points.dropLast }
        else obj
      let triggers1 := updateById s.triggers tid fun _ => obj1
      if obj1.points.length < 2 then
        { s with triggers := removeFirstById triggers1 tid,
                 selected := if s.selected.any (fun r => r.id = tid) then none
                   else s.selected,
                 currentTrigger := none }
      else { s with triggers := triggers1, currentTrigger := none }

/-- app.js completeDrawing (contextmenu / dblclick while drawing). -/
def completeDrawing (s : EditorState) : EditorState :=
  let s1 := match s.currentLane with
    | some lid => completeLane s lid
    | none => s
  match s1.currentTrigger with
  | some tid => completeTrigger s1 tid
  | none => s1

/-- The app.js mousedown handler for a primary click: while drawing any
click extends the drawing; otherwise control-point selection, then line
selection, then a new drawing, first match wins. -/
def onMouseDown (inp : Inputs) (newId : ℕ) (s : EditorState) (x y : ℚ) :
    EditorState :=
  if s.currentLane ≠ none ∨ s.currentTrigger ≠ none then
    startDrawing inp newId s x y
  else
    match checkControlPointClick s x y with
    | some r => { s with selected := some r }
    | none =>
      match checkLineClick s x y with
      | some r => { s with selected := some r }
      | none => startDrawing inp newId s x y

/-- app.js setTool: only the active tool changes. -/
def setTool (s : EditorState) (t : AnnKind) : EditorState :=
  { s with currentTool := t }

/-- app.js deleteLane: bounds check, confirmation, splice, and clearing of
the selection / in-progress references when they point at the removed
object. -/
def deleteLane (s : EditorState) (index : ℕ) (confirmed : Bool) :
    EditorState :=
  if h : index < s.lanes.length then
    if confirmed then
      let removed := s.lanes.get ⟨index, h⟩
      { s with lanes := s.lanes.eraseIdx index,
               selected := if s.selected = some ⟨AnnKind.lane, removed.id⟩
                 then none else s.selected,
               currentLane := if s.currentLane = some removed.id then none
                 else s.currentLane }
    else s
  else s

/-- app.js deleteTrigger, symmetric to deleteLane. -/
def deleteTrigger (s : EditorState) (index : ℕ) (confirmed : Bool) :
    EditorState :=
  if h : index < s.triggers.length then
    if confirmed then
      let removed := s.triggers.get ⟨index, h⟩
      { s with triggers := s.triggers.eraseIdx index,
               selected := if s.selected = some ⟨AnnKind.trigger, removed.id⟩
                 then none else s.selected,
               currentTrigger := if s.currentTrigger = some removed.id
                 then none else s.currentTrigger }
    else s
  else s

/-! ## Annotation store (app.js: getLanesConfig / getTriggersConfig /
saveConfig payload / applyConfig) -/

structure VideoSize where
  width : ℚ
  height : ℚ
deriving DecidableEq, Repr

/-- The {lanes, triggers, videoSize} object built for save and export. -/
structure ConfigPayload where
  lanes : List Annot
  triggers : List Annot
  videoSize : VideoSize
deriving DecidableEq, Repr

/-- app.js getLanesConfig: spread copy of each lane with a deep copy of its
points (a pure identity on the data, kept for shape fidelity). -/
def getLanesConfig (lanes : List Annot) : List Annot :=
  lanes.map fun l => { l with points := l.points.map fun p => (p.1, p.2) }

/-- app.js getTriggersConfig, symmetric to getLanesConfig. -/
def getTriggersConfig (triggers : List Annot) : List Annot :=
  triggers.map fun t => { t with points := t.points.map fun p => (p.1, p.2) }

/-- The config object assembled by saveConfig / exportData. -/
def buildConfig (s : EditorState) : ConfigPayload :=
  { lanes := getLanesConfig s.lanes,
    triggers := getTriggersConfig s.triggers,
    videoSize := ⟨s.nw, s.nh⟩ }

/-- app.js applyConfig: wholesale replacement of both collections, with the
lane-name backfill (name or 车道{number or index+1}), adoption of the
payload video size only when the current size is (0,0), and clearing of
the selection and in-progress references. -/
def applyConfig (s : EditorState) (c : ConfigPayload) : EditorState :=
  { s with
    lanes := c.lanes.enum.map fun p =>
      { p.2 with
        name := if p.2.name = "" then
            "车道" ++ toString (if p.2.number = 0 then p.1 + 1 else p.2.number)
          else p.2.name,
        points := p.2.points.map fun q => (q.1, q.2) },
    triggers := c.triggers.map fun t =>
      { t with points := t.points.map fun q => (q.1, q.2) },
    nw := if s.nw = 0 ∧ s.nh = 0 then c.videoSize.width else s.nw,
    nh := if s.nw = 0 ∧ s.nh = 0 then c.videoSize.height else s.nh,
    selected := none,
    currentLane := none,
    currentTrigger := none }

/-! ## Point record decoder (pointcloud.js: parsePointCoreToBuffers)

Bytes are naturals; a 32-bit little-endian IEEE-754 float is decoded
exactly: finite values become rationals, non-finite bit patterns are kept
symbolically.  The 0.001 scale factor of the source is exact in ℚ. -/

inductive F32 where
  | nan
  | inf (negative : Bool)
  | val (q : ℚ)
deriving DecidableEq, Repr

/-- Exact value of an IEEE-754 binary32 bit pattern.  For a normal number
the value is (2^23 + mant) * 2^(expo - 150) and for a subnormal it is
mant * 2^(1 - 150), both written with a single division by 2^150. -/
def decodeF32Bits (bits : ℕ) : F32 :=
  let sign : ℕ := bits / 2 ^ 31 % 2
  let expo : ℕ := bits / 2 ^ 23 % 256
  let mant : ℕ := bits % 2 ^ 23
  if expo = 255 then
    if mant = 0 then F32.inf (sign = 1) else F32.nan
  else
    let mag : ℚ := if expo = 0 then (mant : ℚ) * 2 / 2 ^ 150
      else ((2 ^ 23 + mant : ℕ) : ℚ) * 2 ^ expo / 2 ^ 150
    F32.val (if sign = 1 then -mag else mag)

/-- DataView.getFloat32(offset, true): little-endian read of 4 bytes.  Out
of range bytes read as 0; the decoder only calls it in range. -/
def getFloat32LE (u8 : List ℕ) (off : ℕ) : F32 :=
  decodeF32Bits (u8.getD off 0 + 256 * u8.getD (off + 1) 0 +
    65536 * u8.getD (off + 2) 0 + 16777216 * u8.getD (off + 3) 0)

/-- The fixed millimeter-to-meter factor applied to each coordinate. -/
def f32scale (f : F32) : F32 :=
  match f with
  | F32.val q => F32.val (q * (1 / 1000))
  | x => x

def POINT_STRIDE : ℕ := 24

structure ParseResult where
  positions : List F32
  colors : List ℚ
  count : ℕ
deriving DecidableEq, Repr

/-- The decode loop of parsePointCoreToBuffers: per point, three floats at
offset, offset+4, offset+8; the intensity, padding and timestamp bytes are
skipped; colors are flat white (1,1,1). -/
def parseLoop (u8 : List ℕ) : ℕ → ℕ → List F32 × List ℚ
  | 0, _ => ([], [])
  | n + 1, offset =>
    let x := getFloat32LE u8 offset
    let y := getFloat32LE u8 (offset + 4)
    let z := getFloat32LE u8 (offset + 8)
    let rest := parseLoop u8 n (offset + 24)
    (f32scale x :: f32scale y :: f32scale z :: rest.1, 1 :: 1 :: 1 :: rest.2)

/-- pointcloud.js parsePointCoreToBuffers: floor(length / 24) points, the
trailing remainder discarded. -/
def parsePointCoreToBuffers (u8 : List ℕ) : ParseResult :=
  let count := u8.length / POINT_STRIDE
  let r := parseLoop u8 count 0
  ⟨r.1, r.2, count⟩

/-! ## Point-cloud stream decoder (pointcloud.js: startPointCloudStream)

The reader loop is modelled as a fold of a chunk-processing step over the
list of chunks delivered by the transport.  Emitted frames are the raw
payload byte lists handed to updatePointCloudFromFrame; two runs emit the
same decoded frames iff they emit the same payloads. -/

/-- The upward scan of pointcloud.js indexOfSubarray, written with an
explicit decreasing counter so that the function is structurally recursive
(hence kernel-evaluable); the wrapper below supplies enough fuel for the
whole scan, and the spec lemmas characterize the result. -/
def indexOfSubarrayAux (hay needle : List ℕ) : ℕ → ℕ → Option ℕ
  | 0, _ => none
  | fuel + 1, i =>
    if i + needle.length ≤ hay.length then
      if (hay.drop i).take needle.length = needle then some i
      else indexOfSubarrayAux hay needle fuel (i + 1)
    else none

/-- pointcloud.js indexOfSubarray: smallest i ≥ fromIdx with
haystack[i .. i + needle.length) = needle; none when absent (the source
returns -1). -/
def indexOfSubarray (hay needle : List ℕ) (fromIdx : ℕ) : Option ℕ :=
  indexOfSubarrayAux hay needle (hay.length + 1 - fromIdx) fromIdx

lemma indexOfSubarrayAux_some_spec (hay needle : List ℕ) :
    ∀ fuel i j, indexOfSubarrayAux hay needle fuel i = some j →
      i ≤ j ∧ j + needle.length ≤ hay.length ∧
        (hay.drop j).take needle.length = needle ∧
        ∀ k, i ≤ k → k < j → (hay.drop k).take needle.length ≠ needle := by
  intro fuel
  induction fuel with
  | zero =>
    intro i j h
    exact absurd h (by simp [indexOfSubarrayAux])
  | succ fuel ih =>
    intro i j h
    unfold indexOfSubarrayAux at h
    by_cases hc : i + needle.length ≤ hay.length
    · rw [if_pos hc] at h
      by_cases hm : (hay.drop i).take needle.length = needle
      · rw [if_pos hm] at h
        cases h
        exact ⟨le_refl _, hc, hm, fun k hk1 hk2 => absurd hk1 (by omega)⟩
      · rw [if_neg hm] at h
        obtain ⟨h1, h2, h3, h4⟩ := ih (i + 1) j h
        refine ⟨by omega, h2, h3, fun k hk1 hk2 => ?_⟩
        rcases Nat.eq_or_lt_of_le hk1 with rfl | hlt
        · exact hm
        · exact h4 k hlt hk2
    · rw [if_neg hc] at h
      exact absurd h (by simp)

/-- Full characterization of a successful search: the hit is at or after
fromIdx, fits in the haystack, matches, and is the first match. -/
lemma indexOfSubarray_some_spec (hay needle : List ℕ) (f j : ℕ)
    (h : indexOfSubarray hay needle f = some j) :
    f ≤ j ∧ j + needle.length ≤ hay.length ∧
      (hay.drop j).take needle.length = needle ∧
      ∀ k, f ≤ k → k < j → (hay.drop k).take needle.length ≠ needle :=
  indexOfSubarrayAux_some_spec hay needle _ f j h

lemma indexOfSubarrayAux_none_spec (hay needle : List ℕ) :
    ∀ fuel i, hay.length + 1 - i ≤ fuel →
      indexOfSubarrayAux hay needle fuel i = none →
      ∀ k, i ≤ k → k + needle.length ≤ hay.length →
        (hay.drop k).take needle.length ≠ needle := by
  intro fuel
  induction fuel with
  | zero =>
    intro i hn h k hk1 hk2
    omega
  | succ fuel ih =>
    intro i hn h k hk1 hk2
    unfold indexOfSubarrayAux at h
    by_cases hc : i + needle.length ≤ hay.length
    · rw [if_pos hc] at h
      by_cases hm : (hay.drop i).take needle.length = needle
      · rw [if_pos hm] at h; exact absurd h (by simp)
      · rw [if_neg hm] at h
        rcases Nat.eq_or_lt_of_le hk1 with rfl | hlt
        · exact hm
        · exact ih (i + 1) (by omega) h k hlt hk2
    · intro hkm
      have := congrArg List.length hkm
      simp only [List.length_take, List.length_drop] at this
      omega

/-- A failed search means no match at any position that fits. -/
lemma indexOfSubarray_none_spec (hay needle : List ℕ) (f : ℕ)
    (h : indexOfSubarray hay needle f = none) :
    ∀ k, f ≤ k → k + needle.length ≤ hay.length →
      (hay.drop k).take needle.length ≠ needle :=
  indexOfSubarrayAux_none_spec hay needle _ f (le_refl _) h

lemma indexOfSubarrayAux_eq_some_of (hay needle : List ℕ)
    (hne : needle ≠ []) :
    ∀ fuel i j, hay.length + 1 - i ≤ fuel → i ≤ j →
      (hay.drop j).take needle.length = needle →
      (∀ k, i ≤ k → k < j → (hay.drop k).take needle.length ≠ needle) →
      indexOfSubarrayAux hay needle fuel i = some j := by
  have hfit : ∀ j, (hay.drop j).take needle.length = needle →
      j + needle.length ≤ hay.length := by
    intro j hm
    have := congrArg List.length hm
    simp only [List.length_take, List.length_drop] at this
    have hnl : 0 < needle.length := List.length_pos.mpr hne
    omega
  intro fuel
  induction fuel with
  | zero =>
    intro i j hn hij hm hmin
    have := hfit j hm
    omega
  | succ fuel ih =>
    intro i j hn hij hm hmin
    have hjf := hfit j hm
    unfold indexOfSubarrayAux
    rcases Nat.eq_or_lt_of_le hij with rfl | hlt
    · rw [if_pos hjf, if_pos hm]
    · rw [if_pos (by omega)]
      rw [if_neg (hmin i (le_refl _) hlt)]
      exact ih (i + 1) j (by omega) hlt hm fun k hk1 hk2 =>
        hmin k (by omega) hk2

/-- Completeness: the first match at or after fromIdx is found. -/
lemma indexOfSubarray_eq_some_of (hay needle : List ℕ) (hne : needle ≠ [])
    (f j : ℕ) (hfj : f ≤ j)
    (hm : (hay.drop j).take needle.length = needle)
    (hmin : ∀ k, f ≤ k → k < j → (hay.drop k).take needle.length ≠ needle) :
    indexOfSubarray hay needle f = some j :=
  indexOfSubarrayAux_eq_some_of hay needle hne _ f j (le_refl _) hfj hm hmin

/-- The boundary marker bytes, TextEncoder.encode of "--frame\r\n". -/
def boundaryBytes : List ℕ := [45, 45, 102, 114, 97, 109, 101, 13, 10]

/-- The header/body separator bytes, TextEncoder.encode of the blank
line. -/
def headerSepBytes : List ℕ := [13, 10, 13, 10]

/-- Payload extraction from one framed section: drop empty sections and
sections without the header separator, strip one trailing CRLF, and drop
empty bodies (none means nothing is handed to the renderer). -/
def framePayload (framePart : List ℕ) : Option (List ℕ) :=
  if framePart = [] then none
  else
    match indexOfSubarray framePart headerSepBytes 0 with
    | none => none
    | some sepIdx =>
      let bodyWithEnd := framePart.drop (sepIdx + headerSepBytes.length)
      let body := if 2 ≤ bodyWithEnd.length ∧
          bodyWithEnd.drop (bodyWithEnd.length - 2) = [13, 10] then
          bodyWithEnd.take (bodyWithEnd.length - 2)
        else bodyWithEnd
      if body = [] then none else some body

/-- The inner while loop of startPointCloudStream, written with an
explicit decreasing counter (each iteration consumes at least one byte, so
the wrapper's fuel suffices): repeatedly extract the bytes strictly
between the first two boundary occurrences, advance the buffer to the
second occurrence, and emit the section payloads in order.  The
firstIdx ≠ 0 resync branch of the source is the drop firstIdx. -/
def processFramesAux : ℕ → List ℕ → List ℕ × List (List ℕ)
  | 0, buffer => (buffer, [])
  | fuel + 1, buffer =>
    match indexOfSubarray buffer boundaryBytes 0 with
    | none => (buffer, [])
    | some firstIdx =>
      match indexOfSubarray (buffer.drop firstIdx) boundaryBytes
          boundaryBytes.length with
      | none => (buffer.drop firstIdx, [])
      | some secondIdx =>
        ((processFramesAux fuel ((buffer.drop firstIdx).drop secondIdx)).1,
         (framePayload (((buffer.drop firstIdx).take secondIdx).drop
           boundaryBytes.length)).toList ++
           (processFramesAux fuel ((buffer.drop firstIdx).drop secondIdx)).2)

/-- The inner while loop of startPointCloudStream on a buffer. -/
def processFrames (buffer : List ℕ) : List ℕ × List (List ℕ) :=
  processFramesAux (buffer.length + 1) buffer

/-- One loop iteration strictly shrinks the buffer. -/
lemma processFrames_shrink {buffer : List ℕ} {firstIdx secondIdx : ℕ}
    (h1 : indexOfSubarray buffer boundaryBytes 0 = some firstIdx)
    (h2 : indexOfSubarray (buffer.drop firstIdx) boundaryBytes
      boundaryBytes.length = some secondIdx) :
    ((buffer.drop firstIdx).drop secondIdx).length < buffer.length := by
  have s1 := indexOfSubarray_some_spec buffer boundaryBytes 0 firstIdx h1
  have s2 := indexOfSubarray_some_spec (buffer.drop firstIdx) boundaryBytes
    boundaryBytes.length secondIdx h2
  have hb : boundaryBytes.length = 9 := rfl
  rw [hb] at s1 s2
  simp only [List.length_drop] at s1 s2 ⊢
  omega

/-- The loop result does not depend on the fuel once it exceeds the buffer
length. -/
lemma processFramesAux_congr :
    ∀ f1 f2 (buffer : List ℕ), buffer.length < f1 → buffer.length < f2 →
      processFramesAux f1 buffer = processFramesAux f2 buffer := by
  intro f1
  induction f1 with
  | zero => intro f2 buffer h1 h2; omega
  | succ f1 ih =>
    intro f2 buffer h1 h2
    cases f2 with
    | zero => omega
    | succ f2 =>
      simp only [processFramesAux]
      cases hA : indexOfSubarray buffer boundaryBytes 0 with
      | none => rfl
      | some firstIdx =>
        dsimp only
        cases hB : indexOfSubarray (buffer.drop firstIdx) boundaryBytes
            boundaryBytes.length with
        | none => rfl
        | some secondIdx =>
          dsimp only
          have hs := processFrames_shrink hA hB
          rw [ih f2 _ (by omega) (by omega)]

/-- processFrames satisfies the recurrence of the source loop. -/
lemma processFrames_eq (buffer : List ℕ) :
    processFrames buffer =
      match indexOfSubarray buffer boundaryBytes 0 with
      | none => (buffer, [])
      | some firstIdx =>
        match indexOfSubarray (buffer.drop firstIdx) boundaryBytes
            boundaryBytes.length with
        | none => (buffer.drop firstIdx, [])
        | some secondIdx =>
          ((processFrames ((buffer.drop firstIdx).drop secondIdx)).1,
           (framePayload (((buffer.drop firstIdx).take secondIdx).drop
             boundaryBytes.length)).toList ++
             (processFrames ((buffer.drop firstIdx).drop secondIdx)).2) := by
  unfold processFrames
  conv_lhs => rw [processFramesAux]
  cases hA : indexOfSubarray buffer boundaryBytes 0 with
  | none => rfl
  | some firstIdx =>
    dsimp only
    cases hB : indexOfSubarray (buffer.drop firstIdx) boundaryBytes
        boundaryBytes.length with
    | none => rfl
    | some secondIdx =>
      dsimp only
      have hs := processFrames_shrink hA hB
      rw [processFramesAux_congr buffer.length
        (((buffer.drop firstIdx).drop secondIdx).length + 1) _ (by omega)
        (by omega)]

/-- The decoder state across reads: the accumulating buffer, the
firstBoundaryFound flag, and the payloads emitted so far. -/
structure DecState where
  buffer : List ℕ
  started : Bool
  frames : List (List ℕ)
deriving DecidableEq, Repr

/-- One iteration of the read loop of startPointCloudStream on a received
chunk: append to the buffer, resync to the first boundary if it has not
been seen yet, then run the frame-extraction loop. -/
def processChunk (s : DecState) (chunk : List ℕ) : DecState :=
  let buffer := s.buffer ++ chunk
  if s.started then
    let r := processFrames buffer
    ⟨r.1, true, s.frames ++ r.2⟩
  else
    match indexOfSubarray buffer boundaryBytes 0 with
    | none => ⟨buffer, false, s.frames⟩
    | some idx =>
      let r := processFrames (buffer.drop idx)
      ⟨r.1, true, s.frames ++ r.2⟩

def initState : DecState := ⟨[], false, []⟩

/-- The whole stream read loop over a given chunk sequence. -/
def runStream (chunks : List (List ℕ)) : DecState :=
  chunks.foldl processChunk initState

/-! Chunk-boundary invariance.  The decoder is incremental: appending more
bytes to a quiescent buffer and rerunning the loop gives the same frames
as having had the bytes in one piece.  The key transport facts are that a
first occurrence of the needle inside the left part of an append is still
the first occurrence of the whole. -/

lemma drop_append_of_fit {l b : List ℕ} {j : ℕ} (hj : j ≤ l.length) :
    (l ++ b).drop j = l.drop j ++ b := by
  rw [List.drop_append_eq_append_drop, Nat.sub_eq_zero_of_le hj,
    List.drop_zero]

lemma take_drop_append {hay b needle : List ℕ} {j : ℕ}
    (hfit : j + needle.length ≤ hay.length) :
    ((hay ++ b).drop j).take needle.length =
      (hay.drop j).take needle.length := by
  rw [drop_append_of_fit (by omega), List.take_append_eq_append_take]
  have : needle.length - (hay.drop j).length = 0 := by
    simp only [List.length_drop]
    omega
  rw [this, List.take_zero, List.append_nil]

lemma indexOfSubarray_append_some {hay needle b : List ℕ} {f j : ℕ}
    (hne : needle ≠ []) (h : indexOfSubarray hay needle f = some j) :
    indexOfSubarray (hay ++ b) needle f = some j := by
  obtain ⟨h1, h2, h3, h4⟩ := indexOfSubarray_some_spec hay needle f j h
  refine indexOfSubarray_eq_some_of _ _ hne _ _ h1 ?_ ?_
  · rw [take_drop_append h2]
    exact h3
  · intro k hk1 hk2
    rw [take_drop_append (by omega)]
    exact h4 k hk1 hk2

lemma boundaryBytes_ne_nil : boundaryBytes ≠ [] := by
  simp [boundaryBytes]

/-! Equation helpers for the three shapes of a processFrames step. -/

lemma processFrames_of_none {buffer : List ℕ}
    (h : indexOfSubarray buffer boundaryBytes 0 = none) :
    processFrames buffer = (buffer, []) := by
  conv_lhs => rw [processFrames_eq]
  rw [h]

lemma processFrames_of_one {buffer : List ℕ} {f : ℕ}
    (h1 : indexOfSubarray buffer boundaryBytes 0 = some f)
    (h2 : indexOfSubarray (buffer.drop f) boundaryBytes
      boundaryBytes.length = none) :
    processFrames buffer = (buffer.drop f, []) := by
  conv_lhs => rw [processFrames_eq]
  rw [h1]
  dsimp only
  rw [h2]

lemma processFrames_of_two {buffer : List ℕ} {f s : ℕ}
    (h1 : indexOfSubarray buffer boundaryBytes 0 = some f)
    (h2 : indexOfSubarray (buffer.drop f) boundaryBytes
      boundaryBytes.length = some s) :
    processFrames buffer =
      ((processFrames ((buffer.drop f).drop s)).1,
       (framePayload (((buffer.drop f).take s).drop
         boundaryBytes.length)).toList ++
         (processFrames ((buffer.drop f).drop s)).2) := by
  conv_lhs => rw [processFrames_eq]
  rw [h1]
  dsimp only
  rw [h2]

/-- The frame-extraction loop is incremental under appending bytes. -/
lemma processFrames_append (u b : List ℕ) :
    processFrames (u ++ b) =
      ((processFrames ((processFrames u).1 ++ b)).1,
       (processFrames u).2 ++ (processFrames ((processFrames u).1 ++ b)).2) := by
  have key : ∀ n u, List.length u ≤ n →
      processFrames (u ++ b) =
        ((processFrames ((processFrames u).1 ++ b)).1,
         (processFrames u).2 ++
           (processFrames ((processFrames u).1 ++ b)).2) := by
    intro n
    induction n with
    | zero =>
      intro u hu
      have hu0 : u = [] := List.length_eq_zero.mp (Nat.le_zero.mp hu)
      subst hu0
      have h : indexOfSubarray ([] : List ℕ) boundaryBytes 0 = none := by decide
      rw [processFrames_of_none h]
      simp
    | succ n ih =>
      intro u hu
      cases hA : indexOfSubarray u boundaryBytes 0 with
      | none =>
        rw [processFrames_of_none hA]
        simp
      | some f =>
        obtain ⟨_, hAfit, hAm, _⟩ := indexOfSubarray_some_spec _ _ _ _ hA
        have hAb : indexOfSubarray (u ++ b) boundaryBytes 0 = some f :=
          indexOfSubarray_append_some boundaryBytes_ne_nil hA
        have hdropA : (u ++ b).drop f = u.drop f ++ b :=
          drop_append_of_fit (by omega)
        -- the dropped buffer starts with the boundary, so a fresh search
        -- finds index 0 there
        have hzero : indexOfSubarray (u.drop f ++ b) boundaryBytes 0 =
            some 0 := by
          refine indexOfSubarray_eq_some_of _ _ boundaryBytes_ne_nil _ _
            (le_refl _) ?_ (fun k hk1 hk2 => absurd hk1 (by omega))
          rw [take_drop_append (by simp only [List.length_drop]; omega)]
          simpa using hAm
        cases hB : indexOfSubarray (u.drop f) boundaryBytes
            boundaryBytes.length with
        | none =>
          rw [processFrames_of_one hA hB]
          cases hC : indexOfSubarray (u.drop f ++ b) boundaryBytes
              boundaryBytes.length with
          | none =>
            have hL : processFrames (u ++ b) = (u.drop f ++ b, []) := by
              have := processFrames_of_one hAb (by rw [hdropA]; exact hC)
              rwa [hdropA] at this
            have hR : processFrames (u.drop f ++ b) = (u.drop f ++ b, []) := by
              have := processFrames_of_one hzero (by
                rw [List.drop_zero]; exact hC)
              rwa [List.drop_zero] at this
            rw [hL, hR]
            simp
          | some s =>
            have hL := processFrames_of_two hAb (by rw [hdropA]; exact hC)
            rw [hdropA] at hL
            have hR := processFrames_of_two hzero (by
              rw [List.drop_zero]; exact hC)
            rw [List.drop_zero] at hR
            rw [hL, hR]
            simp
        | some s =>
          obtain ⟨hBge, hBfit, _, _⟩ := indexOfSubarray_some_spec _ _ _ _ hB
          simp only [List.length_drop] at hBfit
          have hBb : indexOfSubarray (u.drop f ++ b) boundaryBytes
              boundaryBytes.length = some s :=
            indexOfSubarray_append_some boundaryBytes_ne_nil hB
          have hL := processFrames_of_two hAb (by rw [hdropA]; exact hBb)
          rw [hdropA] at hL
          have hdropB : (u.drop f ++ b).drop s = (u.drop f).drop s ++ b :=
            drop_append_of_fit (by simp only [List.length_drop]; omega)
          have htakeB : (u.drop f ++ b).take s = (u.drop f).take s := by
            rw [List.take_append_eq_append_take]
            have : s - (u.drop f).length = 0 := by
              simp only [List.length_drop]
              omega
            rw [this, List.take_zero, List.append_nil]
          rw [hdropB, htakeB] at hL
          have hRu := processFrames_of_two hA hB
          have hshrink : ((u.drop f).drop s).length ≤ n := by
            have h1 := processFrames_shrink hA hB
            simp only [List.length_drop] at h1 ⊢
            omega
          have hIH := ih ((u.drop f).drop s) hshrink
          rw [hIH] at hL
          rw [hL, hRu]
          simp
  exact key u.length u (le_refl _)

/-- processChunk on a started state, as a definitional equation. -/
lemma processChunk_start (x : List ℕ) (frs : List (List ℕ)) (c : List ℕ) :
    processChunk ⟨x, true, frs⟩ c =
      ⟨(processFrames (x ++ c)).1, true,
        frs ++ (processFrames (x ++ c)).2⟩ := rfl

/-- processChunk on a not-yet-started state, as a definitional equation. -/
lemma processChunk_nostart (x : List ℕ) (frs : List (List ℕ)) (c : List ℕ) :
    processChunk ⟨x, false, frs⟩ c =
      match indexOfSubarray (x ++ c) boundaryBytes 0 with
      | none => ⟨x ++ c, false, frs⟩
      | some idx => ⟨(processFrames ((x ++ c).drop idx)).1, true,
          frs ++ (processFrames ((x ++ c).drop idx)).2⟩ := rfl

/-- One read step is incremental: processing chunk a then chunk b is the
same as processing a ++ b in one read. -/
lemma processChunk_append (s : DecState) (a b : List ℕ) :
    processChunk (processChunk s a) b = processChunk s (a ++ b) := by
  obtain ⟨buf, st, fr⟩ := s
  cases st with
  | true =>
    simp only [processChunk_start]
    rw [← List.append_assoc, processFrames_append (buf ++ a) b]
    simp [List.append_assoc]
  | false =>
    rw [processChunk_nostart buf fr a, processChunk_nostart buf fr (a ++ b)]
    cases hA : indexOfSubarray (buf ++ a) boundaryBytes 0 with
    | none =>
      dsimp only
      rw [processChunk_nostart (buf ++ a) fr b, List.append_assoc]
    | some idx =>
      dsimp only
      obtain ⟨_, hfit, _, _⟩ := indexOfSubarray_some_spec _ _ _ _ hA
      have hAb : indexOfSubarray (buf ++ (a ++ b)) boundaryBytes 0 =
          some idx := by
        rw [← List.append_assoc]
        exact indexOfSubarray_append_some boundaryBytes_ne_nil hA
      rw [hAb]
      dsimp only
      rw [processChunk_start]
      have hdrop : (buf ++ (a ++ b)).drop idx = (buf ++ a).drop idx ++ b := by
        rw [← List.append_assoc]
        exact drop_append_of_fit (by omega)
      rw [hdrop, processFrames_append ((buf ++ a).drop idx) b]
      simp [List.append_assoc]

/-- Folding the read loop over chunks equals one read of their
concatenation, from any reached state. -/
lemma foldl_processChunk (chunks : List (List ℕ)) :
    ∀ (s : DecState) (c : List ℕ),
      List.foldl processChunk (processChunk s c) chunks =
        processChunk s (c ++ chunks.flatten) := by
  induction chunks with
  | nil => intro s c; simp
  | cons c2 rest ih =>
    intro s c
    simp only [List.foldl_cons, List.flatten_cons]
    rw [ih (processChunk s c) c2, processChunk_append, ← List.append_assoc]

/-- A minimal complete framed section followed by the next boundary
marker: boundary, empty header, blank-line separator, payload byte 65,
trailing CRLF, next boundary (25 bytes; the final boundary occupies
positions 16..24). -/
def sampleStream : List ℕ :=
  boundaryBytes ++ headerSepBytes ++ [65] ++ [13, 10] ++ boundaryBytes

/-! ## Decode-loop index lemmas (pointcloud.js parsePointCoreToBuffers) -/

lemma parseLoop_length (u8 : List ℕ) :
    ∀ n off, (parseLoop u8 n off).1.length = 3 * n ∧
      (parseLoop u8 n off).2.length = 3 * n := by
  intro n
  induction n with
  | zero => intro off; simp [parseLoop]
  | succ n ih =>
    intro off
    obtain ⟨a, b⟩ := ih (off + 24)
    constructor
    · simp only [parseLoop, List.length_cons, a]
      omega
    · simp only [parseLoop, List.length_cons, b]
      omega

lemma parseLoop_colors (u8 : List ℕ) :
    ∀ n off c, c ∈ (parseLoop u8 n off).2 → c = 1 := by
  intro n
  induction n with
  | zero => intro off c hc; simp [parseLoop] at hc
  | succ n ih =>
    intro off c hc
    simp only [parseLoop, List.mem_cons] at hc
    rcases hc with h | h | h | h
    · exact h
    · exact h
    · exact h
    · exact ih (off + 24) c h

lemma parseLoop_get (u8 : List ℕ) :
    ∀ n i off, i < n →
      (parseLoop u8 n off).1[3 * i]? =
        some (f32scale (getFloat32LE u8 (off + 24 * i))) ∧
      (parseLoop u8 n off).1[3 * i + 1]? =
        some (f32scale (getFloat32LE u8 (off + 24 * i + 4))) ∧
      (parseLoop u8 n off).1[3 * i + 2]? =
        some (f32scale (getFloat32LE u8 (off + 24 * i + 8))) := by
  intro n
  induction n with
  | zero => intro i off h; exact absurd h (Nat.not_lt_zero i)
  | succ n ih =>
    intro i off h
    cases i with
    | zero => simp [parseLoop]
    | succ i =>
      obtain ⟨g1, g2, g3⟩ := ih i (off + 24) (by omega)
      have e : off + 24 + 24 * i = off + 24 * (i + 1) := by ring
      rw [e] at g1 g2 g3
      refine ⟨?_, ?_, ?_⟩
      · rw [show 3 * (i + 1) = 3 * i + 1 + 1 + 1 from by ring]
        simpa only [parseLoop, List.getElem?_cons_succ] using g1
      · rw [show 3 * (i + 1) + 1 = (3 * i + 1) + 1 + 1 + 1 from by ring]
        simpa only [parseLoop, List.getElem?_cons_succ] using g2
      · rw [show 3 * (i + 1) + 2 = (3 * i + 2) + 1 + 1 + 1 from by ring]
        simpa only [parseLoop, List.getElem?_cons_succ] using g3

/-- C2: the decoded frames depend only on the concatenation of the bytes
read, not on the chunk split (first conjunct, fully general); in
particular, splitting the sample stream anywhere inside the trailing
boundary marker (positions 17..24) yields no frame after the first chunk
and exactly one frame, the payload [65], once the second chunk arrives,
identical to the single-read result (remaining conjuncts). -/
theorem stream_chunk_invariance :
    (∀ chunks : List (List ℕ),
      (runStream chunks).frames =
        (processChunk initState chunks.flatten).frames) ∧
    (∀ k, k < 25 → 16 < k →
      (processChunk initState (sampleStream.take k)).frames = [] ∧
      (runStream [sampleStream.take k, sampleStream.drop k]).frames =
        [[65]]) ∧
    (runStream [sampleStream]).frames = [[65]] := by
  refine ⟨?_, by decide, by decide⟩
  intro chunks
  cases chunks with
  | nil => decide
  | cons c rest =>
    rw [runStream, List.foldl_cons, foldl_processChunk, List.flatten_cons]

/-- C2 witness: the invariance at a concrete chunk split and the sample
straddled split at position 20. -/
theorem stream_chunk_invariance_witness :
    (runStream [[45, 45], [102, 114]]).frames =
      (processChunk initState [45, 45, 102, 114]).frames ∧
    (processChunk initState (sampleStream.take 20)).frames = [] ∧
    (runStream [sampleStream.take 20, sampleStream.drop 20]).frames =
      [[65]] :=
  ⟨stream_chunk_invariance.1 [[45, 45], [102, 114]],
   (stream_chunk_invariance.2.1 20 (by decide) (by decide)).1,
   (stream_chunk_invariance.2.1 20 (by decide) (by decide)).2⟩

/-- C3: the point decoder decodes exactly floor(L / 24) points, discarding
the remainder; point i reads the three little-endian 32-bit floats at byte
offsets 24i, 24i+4, 24i+8, scaled by 0.001, the remaining 12 bytes of the
record being ignored; every color component is 1 (flat white); and a
payload of 24 * 3 + 5 bytes decodes exactly 3 points. -/
theorem point_decoder_spec (u8 : List ℕ) :
    (parsePointCoreToBuffers u8).count = u8.length / POINT_STRIDE ∧
    (parsePointCoreToBuffers u8).positions.length =
      3 * (u8.length / POINT_STRIDE) ∧
    (parsePointCoreToBuffers u8).colors.length =
      3 * (u8.length / POINT_STRIDE) ∧
    (∀ i, i < u8.length / POINT_STRIDE →
      (parsePointCoreToBuffers u8).positions[3 * i]? =
        some (f32scale (getFloat32LE u8 (24 * i))) ∧
      (parsePointCoreToBuffers u8).positions[3 * i + 1]? =
        some (f32scale (getFloat32LE u8 (24 * i + 4))) ∧
      (parsePointCoreToBuffers u8).positions[3 * i + 2]? =
        some (f32scale (getFloat32LE u8 (24 * i + 8)))) ∧
    (∀ c ∈ (parsePointCoreToBuffers u8).colors, c = 1) ∧
    (u8.length = POINT_STRIDE * 3 + 5 →
      (parsePointCoreToBuffers u8).count = 3) := by
  refine ⟨rfl, (parseLoop_length u8 _ 0).1, (parseLoop_length u8 _ 0).2,
    ?_, ?_, ?_⟩
  · intro i hi
    have h := parseLoop_get u8 (u8.length / POINT_STRIDE) i 0 hi
    simpa only [Nat.zero_add] using h
  · intro c hc
    exact parseLoop_colors u8 _ 0 c hc
  · intro hlen
    show u8.length / POINT_STRIDE = 3
    rw [hlen]
    decide

/-- C3 witness: a 77-byte all-zero payload decodes exactly 3 points, the
first position being the scaled zero float. -/
theorem point_decoder_spec_witness :
    (parsePointCoreToBuffers (List.replicate 77 0)).count = 3 ∧
    (parsePointCoreToBuffers (List.replicate 77 0)).positions[0]? =
      some (f32scale (getFloat32LE (List.replicate 77 0) 0)) :=
  ⟨(point_decoder_spec (List.replicate 77 0)).2.2.2.2.2 (by decide),
   by
    have h := ((point_decoder_spec (List.replicate 77 0)).2.2.2.1 0
      (by decide)).1
    simpa using h⟩

/-! ## Editor state machine helper lemmas -/

lemma updateById_no_match {l : List Annot} {id : ℕ} {f : Annot → Annot}
    (h : ∀ a ∈ l, a.id ≠ id) : updateById l id f = l := by
  unfold updateById
  induction l with
  | nil => rfl
  | cons a l ih =>
    rw [List.map_cons, if_neg (h a (by simp)),
      ih fun x hx => h x (by simp [hx])]

lemma updateById_append {l1 l2 : List Annot} {id : ℕ} {f : Annot → Annot} :
    updateById (l1 ++ l2) id f = updateById l1 id f ++ updateById l2 id f :=
  List.map_append _ _ _

lemma findIdx?_append_fresh {l : List Annot} {t : Annot}
    (h : ∀ a ∈ l, a.id ≠ t.id) :
    ∀ i, List.findIdx? (fun x => x.id = t.id) (l ++ [t]) i =
      some (i + l.length) := by
  induction l with
  | nil => intro i; simp [List.findIdx?_cons]
  | cons a l ih =>
    intro i
    rw [List.cons_append, List.findIdx?_cons,
      if_neg (by simpa using h a (by simp)),
      ih (fun x hx => h x (by simp [hx])) (i + 1)]
    congr 1
    simp only [List.length_cons]
    omega

lemma removeFirstById_append_fresh {l : List Annot} {t : Annot}
    (h : ∀ a ∈ l, a.id ≠ t.id) : removeFirstById (l ++ [t]) t.id = l := by
  unfold removeFirstById
  rw [show ((l ++ [t]).findIdx? fun x => x.id = t.id) =
    some (0 + l.length) from findIdx?_append_fresh h 0]
  dsimp only
  rw [List.eraseIdx_eq_take_drop_succ, Nat.zero_add]
  rw [List.take_left, List.drop_append_eq_append_drop]
  simp

/-! ## Hit-test theorems (C4) -/

/-- A committed trigger of stroke width 1 along the x-axis, used as a
concrete state for the hit-test counterexample. -/
def cxTrigger : Annot :=
  { id := 1, kind := AnnKind.trigger, number := 0, name := "t1",
    color := "#FF6D00", width := 1, points := [(0, 0), (40, 0)] }

/-- An idle editor state holding only cxTrigger, with unknown natural size
so that display and natural coordinates coincide. -/
def cxState : EditorState :=
  { cw := 800, ch := 600, nw := 0, nh := 0,
    currentTool := AnnKind.trigger, lanes := [], triggers := [cxTrigger],
    selected := none, currentLane := none, currentTrigger := none }

/-- C4 counterexample: at the click (20, 8) in Idle state no control point
is hit, and the line hit test selects the trigger although the
point-to-segment distance is 8, which exceeds the claimed threshold
strokeWidth + 5 = 6 (squared: 64 > 36); the code uses the fixed threshold
10 instead. -/
theorem line_hit_threshold_counterexample :
    cxState.currentLane = none ∧ cxState.currentTrigger = none ∧
    checkControlPointClick cxState 20 8 = none ∧
    checkLineClick cxState 20 8 = some ⟨AnnKind.trigger, 1⟩ ∧
    pointToLineDistanceSq 20 8 0 0 40 0 = 8 ^ 2 ∧
    (cxTrigger.width + 5) ^ 2 = 6 ^ 2 ∧
    ¬(pointToLineDistanceSq 20 8 0 0 40 0 ≤ (cxTrigger.width + 5) ^ 2) := by
  refine ⟨rfl, rfl, ?_, ?_, ?_, ?_, ?_⟩
  · norm_num [checkControlPointClick, taggedItems, cxState, cxTrigger,
      hitsControlPoint, toDisplayPt, actualToDisplay, List.find?]
  · norm_num [checkLineClick, taggedItems, cxState, cxTrigger, hitsSegment,
      toDisplayPt, actualToDisplay, List.find?, pointToLineDistanceSq,
      List.range, List.range.loop]
  · norm_num [pointToLineDistanceSq]
  · norm_num [cxTrigger]
  · norm_num [pointToLineDistanceSq, cxTrigger]

/-- C4 amended: the line hit test selects an annotation iff some
annotation (lanes first, then triggers) has at least two points and a
consecutive display-space segment whose squared distance to the click is
within the fixed squared threshold 10^2, independently of the
annotation's strokeWidth. -/
theorem line_hit_fixed_threshold (s : EditorState) (x y : ℚ) :
    (checkLineClick s x y).isSome = true ↔
      ∃ item ∈ s.lanes ++ s.triggers, 2 ≤ item.points.length ∧
        ∃ i < item.points.length - 1,
          pointToLineDistanceSq x y
            (toDisplayPt s (item.points.getD i (0, 0))).1
            (toDisplayPt s (item.points.getD i (0, 0))).2
            (toDisplayPt s (item.points.getD (i + 1) (0, 0))).1
            (toDisplayPt s (item.points.getD (i + 1) (0, 0))).2 ≤ 10 ^ 2 := by
  have h100 : ((10 : ℚ) ^ 2) = 100 := by norm_num
  constructor
  · intro h
    rw [checkLineClick, Option.isSome_map'] at h
    rw [List.find?_isSome] at h
    obtain ⟨it, hmem, hp⟩ := h
    rw [hitsSegment, Bool.and_eq_true, decide_eq_true_eq,
      List.any_eq_true] at hp
    obtain ⟨hlen, i, hi, hd⟩ := hp
    rw [List.mem_range] at hi
    rw [decide_eq_true_eq] at hd
    refine ⟨it.2, ?_, hlen, i, hi, by rwa [h100]⟩
    rw [taggedItems] at hmem
    rcases List.mem_append.mp hmem with hmem2 | hmem2
    · obtain ⟨a, ha, rfl⟩ := List.mem_map.mp hmem2
      exact List.mem_append.mpr (Or.inl ha)
    · obtain ⟨a, ha, rfl⟩ := List.mem_map.mp hmem2
      exact List.mem_append.mpr (Or.inr ha)
  · intro h
    obtain ⟨item, hmem, hlen, i, hi, hd⟩ := h
    rw [checkLineClick, Option.isSome_map', List.find?_isSome]
    have hhits : hitsSegment s x y item = true := by
      rw [hitsSegment, Bool.and_eq_true, decide_eq_true_eq,
        List.any_eq_true]
      exact ⟨hlen, i, List.mem_range.mpr hi,
        decide_eq_true (by rwa [h100] at hd)⟩
    rcases List.mem_append.mp hmem with h2 | h2
    · exact ⟨(AnnKind.lane, item), List.mem_append.mpr
        (Or.inl (List.mem_map.mpr ⟨item, h2, rfl⟩)), hhits⟩
    · exact ⟨(AnnKind.trigger, item), List.mem_append.mpr
        (Or.inr (List.mem_map.mpr ⟨item, h2, rfl⟩)), hhits⟩

/-! ## Drag-adjust theorems (C5) -/

/-- A committed lane used for the control-point click scenario. -/
def c5Lane : Annot :=
  { id := 2, kind := AnnKind.lane, number := 1, name := "车道1",
    color := "#4285F4", width := 3, points := [(5, 5), (20, 5)] }

/-- An idle editor state holding only c5Lane, identity mapping. -/
def c5State : EditorState :=
  { cw := 800, ch := 600, nw := 0, nh := 0, currentTool := AnnKind.lane,
    lanes := [c5Lane], triggers := [], selected := none,
    currentLane := none, currentTrigger := none }

/-- Concrete DOM inputs for the drawing scenarios. -/
def c5Inputs : Inputs :=
  { laneWidth := 3, laneColor := "#4285F4", triggerWidth := 2,
    triggerColor := "#FF6D00", triggerName := "" }

/-- C5 counterexample: in Idle, a primary click at the vertex (5, 5) of
c5Lane hits its control point and merely selects the lane; the following
pointer move to (30, 30) leaves the state unchanged, so the clicked
vertex still holds (5, 5) and not the moved-to natural position (30, 30)
that a drag-adjust mode would have written. -/
theorem drag_adjust_counterexample :
    checkControlPointClick c5State 5 5 = some ⟨AnnKind.lane, 2⟩ ∧
    onMouseDown c5Inputs 99 c5State 5 5 =
      { c5State with selected := some ⟨AnnKind.lane, 2⟩ } ∧
    draw (onMouseDown c5Inputs 99 c5State 5 5) 30 30 =
      onMouseDown c5Inputs 99 c5State 5 5 ∧
    toActualPt c5State (30, 30) = (30, 30) ∧
    (draw (onMouseDown c5Inputs 99 c5State 5 5) 30 30).lanes.map
      Annot.points = [[(5, 5), (20, 5)]] ∧
    ¬((5 : ℚ), (5 : ℚ)) = ((30 : ℚ), (30 : ℚ)) := by
  have hhit : checkControlPointClick c5State 5 5 =
      some ⟨AnnKind.lane, 2⟩ := by
    norm_num [checkControlPointClick, taggedItems, c5State, c5Lane,
      hitsControlPoint, toDisplayPt, actualToDisplay, List.find?]
  have hdown : onMouseDown c5Inputs 99 c5State 5 5 =
      { c5State with selected := some ⟨AnnKind.lane, 2⟩ } := by
    unfold onMouseDown
    rw [if_neg (by simp [c5State]), hhit]
  have hmove : draw (onMouseDown c5Inputs 99 c5State 5 5) 30 30 =
      onMouseDown c5Inputs 99 c5State 5 5 := by
    rw [hdown]
    unfold draw
    rw [if_pos ⟨rfl, rfl⟩]
  refine ⟨hhit, hdown, hmove, ?_, ?_, ?_⟩
  · norm_num [toActualPt, displayToActual, c5State]
  · rw [hmove, hdown]
    simp [c5State, c5Lane]
  · intro h
    have := congrArg Prod.fst h
    norm_num at this

/-- C5 amended: in Idle, a primary click that hits a control point only
selects the hit annotation (no drag-adjust sub-mode exists); every
subsequent pointer move leaves the whole editor state, in particular
every annotation vertex, unchanged. -/
theorem control_point_click_selects_only (s : EditorState) (x y : ℚ)
    (inp : Inputs) (newId : ℕ) (r : SelRef)
    (hL : s.currentLane = none) (hT : s.currentTrigger = none)
    (hhit : checkControlPointClick s x y = some r) :
    onMouseDown inp newId s x y = { s with selected := some r } ∧
    ∀ x2 y2, draw (onMouseDown inp newId s x y) x2 y2 =
      onMouseDown inp newId s x y := by
  have h1 : onMouseDown inp newId s x y = { s with selected := some r } := by
    unfold onMouseDown
    rw [if_neg (by simp [hL, hT]), hhit]
  refine ⟨h1, fun x2 y2 => ?_⟩
  rw [h1]
  unfold draw
  rw [if_pos ⟨hL, hT⟩]

/-- C5 witness: the amended behavior at the concrete scenario. -/
theorem control_point_click_selects_only_witness :
    onMouseDown c5Inputs 99 c5State 5 5 =
      { c5State with selected := some ⟨AnnKind.lane, 2⟩ } ∧
    ∀ x2 y2, draw (onMouseDown c5Inputs 99 c5State 5 5) x2 y2 =
      onMouseDown c5Inputs 99 c5State 5 5 :=
  control_point_click_selects_only c5State 5 5 c5Inputs 99
    ⟨AnnKind.lane, 2⟩ rfl rfl
    (by norm_num [checkControlPointClick, taggedItems, c5State, c5Lane,
      hitsControlPoint, toDisplayPt, actualToDisplay, List.find?])

/-! ## Single-click trigger discard (C6) -/

/-- C6: in Idle with the trigger tool, a primary click that hits nothing
adds an in-progress trigger (collection length + 1); completing right away
(secondary/context click or double-click) strips the preview point,
leaves fewer than 2 points, and therefore removes the trigger again,
clears the selection reference to it and the in-progress reference: the
final state is the original one except that selected is empty. -/
theorem single_click_trigger_discarded (s : EditorState) (x y : ℚ)
    (inp : Inputs) (newId : ℕ)
    (hL : s.currentLane = none) (hT : s.currentTrigger = none)
    (htool : s.currentTool = AnnKind.trigger)
    (hnoctl : checkControlPointClick s x y = none)
    (hnoline : checkLineClick s x y = none)
    (hfresh : ∀ t ∈ s.triggers, t.id ≠ newId) :
    (onMouseDown inp newId s x y).triggers.length =
      s.triggers.length + 1 ∧
    completeDrawing (onMouseDown inp newId s x y) =
      { s with selected := none } := by
  set a := toActualPt s (x, y) with ha
  set newT : Annot :=
    { id := newId, kind := AnnKind.trigger, number := 0,
      name := if inp.triggerName = "" then
          "触发线" ++ toString (s.triggers.length + 1)
        else inp.triggerName,
      color := inp.triggerColor, width := inp.triggerWidth,
      points := [a, a] } with hnewT
  have hdown : onMouseDown inp newId s x y =
      { s with triggers := s.triggers ++ [newT],
               selected := some ⟨AnnKind.trigger, newId⟩,
               currentTrigger := some newId } := by
    unfold onMouseDown
    rw [if_neg (by simp [hL, hT]), hnoctl]
    dsimp only
    rw [hnoline]
    dsimp only
    unfold startDrawing
    rw [hL]
    dsimp only
    rw [hT]
    dsimp only
    rw [htool]
  refine ⟨by simp [hdown], ?_⟩
  rw [hdown]
  unfold completeDrawing
  dsimp only
  rw [hL]
  dsimp only
  unfold completeTrigger
  dsimp only
  have hfind : (s.triggers ++ [newT]).find? (fun t => t.id = newId) =
      some newT := by
    rw [List.find?_append]
    rw [List.find?_eq_none.mpr fun t ht => by
      simpa using hfresh t ht]
    simp [List.find?, hnewT]
  rw [hfind]
  dsimp only
  rw [if_pos (by simp [hnewT])]
  rw [if_pos (by simp [hnewT])]
  have hupd : updateById (s.triggers ++ [newT]) newId
      (fun _ => { newT with points := [a, a].dropLast }) =
      s.triggers ++ [{ newT with points := [a] }] := by
    rw [updateById_append, updateById_no_match hfresh]
    simp [updateById, hnewT]
  rw [hupd]
  have hrem : removeFirstById
      (s.triggers ++ [{ newT with points := [a] }]) newId = s.triggers := by
    have := removeFirstById_append_fresh
      (l := s.triggers) (t := { newT with points := [a] })
      (by intro q hq; simpa [hnewT] using hfresh q hq)
    simpa [hnewT] using this
  rw [hrem]
  rw [if_pos (by simp)]
  rw [hT]

/-- An empty idle editor state with the trigger tool active. -/
def emptyTriggerState : EditorState :=
  { cw := 800, ch := 600, nw := 0, nh := 0,
    currentTool := AnnKind.trigger, lanes := [], triggers := [],
    selected := none, currentLane := none, currentTrigger := none }

/-- C6 witness: the discard at the empty state with a concrete click. -/
theorem single_click_trigger_discarded_witness :
    (onMouseDown c5Inputs 42 emptyTriggerState 5 5).triggers.length =
      emptyTriggerState.triggers.length + 1 ∧
    completeDrawing (onMouseDown c5Inputs 42 emptyTriggerState 5 5) =
      { emptyTriggerState with selected := none } :=
  single_click_trigger_discarded emptyTriggerState 5 5 c5Inputs 42
    rfl rfl rfl
    (by simp [checkControlPointClick, taggedItems, emptyTriggerState])
    (by simp [checkLineClick, taggedItems, emptyTriggerState])
    (by simp [emptyTriggerState])

/-! ## Store round trip (C7) -/

lemma map_self_of_eq {α : Type} {f : α → α} {l : List α}
    (h : ∀ a ∈ l, f a = a) : l.map f = l := by
  induction l with
  | nil => rfl
  | cons a l ih =>
    rw [List.map_cons, h a (by simp), ih fun x hx => h x (by simp [hx])]

lemma points_copy_id (pts : List (ℚ × ℚ)) :
    (pts.map fun p => (p.1, p.2)) = pts := by simp

/-- Serialization is the identity on the data: the spread copies and the
point deep copies do not change any field. -/
lemma buildConfig_eq (s : EditorState) :
    buildConfig s = ⟨s.lanes, s.triggers, ⟨s.nw, s.nh⟩⟩ := by
  unfold buildConfig getLanesConfig getTriggersConfig
  refine congrArg₂ (fun a b => ConfigPayload.mk a b ⟨s.nw, s.nh⟩) ?_ ?_ <;>
    exact map_self_of_eq fun a _ => by rw [points_copy_id]

/-- A lane with an empty name, reachable in the data model, on which the
round trip is not the identity. -/
def c7Lane : Annot :=
  { id := 3, kind := AnnKind.lane, number := 7, name := "", color := "#fff",
    width := 3, points := [(0, 0), (1, 1)] }

def c7State : EditorState :=
  { cw := 800, ch := 600, nw := 100, nh := 50, currentTool := AnnKind.lane,
    lanes := [c7Lane], triggers := [], selected := none,
    currentLane := none, currentTrigger := none }

/-- C7 counterexample: deserializing the serialized state does not
reproduce an empty lane name; applyConfig back-fills it with the default
车道{number}, so the round trip is not exact on every editor state. -/
theorem roundtrip_counterexample :
    (applyConfig c7State (buildConfig c7State)).lanes.map Annot.name =
      ["车道7"] ∧
    c7State.lanes.map Annot.name = [""] ∧
    applyConfig c7State (buildConfig c7State) ≠
      { c7State with selected := none, currentLane := none,
                     currentTrigger := none } := by
  have h1 : (applyConfig c7State (buildConfig c7State)).lanes.map
      Annot.name = ["车道7"] := by
    rw [buildConfig_eq]
    simp only [applyConfig, c7State, c7Lane, List.enum, List.enumFrom,
      List.map_cons, List.map_nil]
    decide
  refine ⟨h1, rfl, fun h => ?_⟩
  rw [h] at h1
  simp [c7State, c7Lane] at h1

/-- C7 amended: for every editor state in which no lane has an empty name,
deserializing the serialized {lanes, triggers, videoSize} payload
reproduces every annotation (points in order, color, width, name, and all
other fields) and the video size exactly, and resets the selection and
in-progress references to empty; an empty lane name is instead
back-filled with the default 车道{number or index+1}. -/
theorem roundtrip_exact (s : EditorState)
    (hname : ∀ l ∈ s.lanes, l.name ≠ "") :
    applyConfig s (buildConfig s) =
      { s with selected := none, currentLane := none,
               currentTrigger := none } := by
  rw [buildConfig_eq]
  unfold applyConfig
  have hlanes : (List.map (fun p =>
      { p.2 with
        name := if p.2.name = "" then
            "车道" ++ toString (if p.2.number = 0 then p.1 + 1 else p.2.number)
          else p.2.name,
        points := p.2.points.map fun q => (q.1, q.2) })
      s.lanes.enum) = s.lanes := by
    have step : ∀ p ∈ s.lanes.enum, ({ p.2 with
        name := if p.2.name = "" then
            "车道" ++ toString (if p.2.number = 0 then p.1 + 1 else p.2.number)
          else p.2.name,
        points := p.2.points.map fun q => (q.1, q.2) } : Annot) = p.2 := by
      intro p hp
      have hmem : p.2 ∈ s.lanes :=
        List.snd_mem_of_mem_enumFrom (by simpa [List.enum] using hp)
      rw [if_neg (hname p.2 hmem), points_copy_id]
    rw [List.map_congr_left step, List.enum_map_snd]
  have htriggers : (List.map (fun t =>
      { t with points := t.points.map fun q => (q.1, q.2) })
      s.triggers) = s.triggers :=
    map_self_of_eq fun t _ => by rw [points_copy_id]
  have hsize : ∀ w : ℚ, (if s.nw = 0 ∧ s.nh = 0 then w else w) = w :=
    fun w => ite_self w
  obtain ⟨cw, ch, nw, nh, tool, lanes, triggers, sel, cl, ct⟩ := s
  simp only at hlanes htriggers ⊢
  rw [hlanes, htriggers]
  simp [ite_self]

/-- A state with two named lanes and one trigger for the round-trip
witness. -/
def c7GoodState : EditorState :=
  { cw := 800, ch := 600, nw := 100, nh := 50, currentTool := AnnKind.lane,
    lanes := [{ id := 1, kind := AnnKind.lane, number := 1, name := "车道1",
                color := "#4285F4", width := 3, points := [(0, 0), (9, 2)] },
              { id := 2, kind := AnnKind.lane, number := 2, name := "车道2",
                color := "#DB4437", width := 5, points := [(3, 4), (5, 6)] }],
    triggers := [{ id := 4, kind := AnnKind.trigger, number := 0,
                   name := "触发线1", color := "#FF6D00", width := 2,
                   points := [(1, 1), (2, 2)] }],
    selected := some ⟨AnnKind.lane, 1⟩, currentLane := none,
    currentTrigger := none }

/-- C7 witness: the exact round trip on the concrete two-lane one-trigger
state. -/
theorem roundtrip_exact_witness :
    applyConfig c7GoodState (buildConfig c7GoodState) =
      { c7GoodState with selected := none, currentLane := none,
                         currentTrigger := none } :=
  roundtrip_exact c7GoodState (by
    intro l hl
    simp only [c7GoodState, List.mem_cons, List.not_mem_nil, or_false]
      at hl
    rcases hl with rfl | rfl <;> decide)

/-! ## Deletion (C8) -/

/-- C8: an unconfirmed delete changes nothing; a confirmed delete at a
valid index removes exactly that annotation from its owning collection,
leaves the other collection untouched, clears selected iff it referenced
the removed annotation, and otherwise leaves selected unchanged. -/
theorem delete_spec (s : EditorState) (i : ℕ) :
    deleteLane s i false = s ∧
    deleteTrigger s i false = s ∧
    (∀ h : i < s.lanes.length,
      (deleteLane s i true).lanes = s.lanes.eraseIdx i ∧
      (deleteLane s i true).triggers = s.triggers ∧
      (s.selected = some ⟨AnnKind.lane, (s.lanes.get ⟨i, h⟩).id⟩ →
        (deleteLane s i true).selected = none) ∧
      (s.selected ≠ some ⟨AnnKind.lane, (s.lanes.get ⟨i, h⟩).id⟩ →
        (deleteLane s i true).selected = s.selected)) ∧
    (∀ h : i < s.triggers.length,
      (deleteTrigger s i true).triggers = s.triggers.eraseIdx i ∧
      (deleteTrigger s i true).lanes = s.lanes ∧
      (s.selected = some ⟨AnnKind.trigger, (s.triggers.get ⟨i, h⟩).id⟩ →
        (deleteTrigger s i true).selected = none) ∧
      (s.selected ≠ some ⟨AnnKind.trigger, (s.triggers.get ⟨i, h⟩).id⟩ →
        (deleteTrigger s i true).selected = s.selected)) := by
  refine ⟨?_, ?_, ?_, ?_⟩
  · unfold deleteLane
    split
    · rfl
    · rfl
  · unfold deleteTrigger
    split
    · rfl
    · rfl
  · intro h
    unfold deleteLane
    rw [dif_pos h, if_pos rfl]
    refine ⟨rfl, rfl, fun hsel => ?_, fun hsel => ?_⟩
    · exact if_pos hsel
    · exact if_neg hsel
  · intro h
    unfold deleteTrigger
    rw [dif_pos h, if_pos rfl]
    refine ⟨rfl, rfl, fun hsel => ?_, fun hsel => ?_⟩
    · exact if_pos hsel
    · exact if_neg hsel

/-- C8 witness: confirmed deletion of the selected lane at index 0 of the
two-lane state clears the selection; the non-selected lane case is the
same theorem applied with the selection test failing. -/
theorem delete_spec_witness :
    (deleteLane c7GoodState 0 true).lanes =
      c7GoodState.lanes.eraseIdx 0 ∧
    (deleteLane c7GoodState 0 true).triggers = c7GoodState.triggers ∧
    (deleteLane c7GoodState 0 true).selected = none ∧
    (deleteTrigger c7GoodState 0 true).selected =
      c7GoodState.selected :=
  ⟨((delete_spec c7GoodState 0).2.2.1 (by decide)).1,
   ((delete_spec c7GoodState 0).2.2.1 (by decide)).2.1,
   ((delete_spec c7GoodState 0).2.2.1 (by decide)).2.2.1 (by decide),
   ((delete_spec c7GoodState 0).2.2.2 (by decide)).2.2.2 (by decide)⟩

/-! ## Tool toggle while drawing (C10) -/

lemma set_last_eq_dropLast_append {α : Type} (pts : List α) (a : α)
    (h : 1 ≤ pts.length) :
    pts.set (pts.length - 1) a = pts.dropLast ++ [a] := by
  rw [List.set_eq_take_append_cons_drop,
    if_pos (show pts.length - 1 < pts.length by omega),
    List.dropLast_eq_take]
  have hd : pts.drop (pts.length - 1 + 1) = [] :=
    List.drop_eq_nil_of_le (by omega)
  rw [hd]

/-- Fixing the preview point and pushing a fresh one appends exactly one
permanent vertex: the committed front part is kept and the last two entries
become the clicked point. -/
lemma fixPreviewAndPush_spec (pts : List (ℚ × ℚ)) (a : ℚ × ℚ)
    (h : 1 ≤ pts.length) :
    fixPreviewAndPush pts a = pts.dropLast ++ [a, a] ∧
    (fixPreviewAndPush pts a).length = pts.length + 1 := by
  have h1 : fixPreviewAndPush pts a = pts.dropLast ++ [a, a] := by
    unfold fixPreviewAndPush
    rw [set_last_eq_dropLast_append pts a h, List.append_assoc]
    rfl
  refine ⟨h1, ?_⟩
  rw [h1]
  simp only [List.length_append, List.length_dropLast, List.length_cons,
    List.length_nil]
  omega

/-- The in-progress extension applied by startDrawing through the
in-progress reference: fix the preview point at p and push p again. -/
def extendPoints (p : ℚ × ℚ) (a : Annot) : Annot :=
  { a with points := fixPreviewAndPush a.points p }

/-- C10: setTool changes only the active tool; with an in-progress
annotation, a primary click extends that annotation regardless of the
tool just selected (the toggle neither cancels, completes, nor abandons
the drawing), fixing the preview point and pushing a fresh one. -/
theorem drawing_ignores_tool (s : EditorState) (inp : Inputs) (newId : ℕ)
    (t : AnnKind) (x y : ℚ) :
    setTool s t = { s with currentTool := t } ∧
    (∀ lid, s.currentLane = some lid →
      onMouseDown inp newId (setTool s t) x y =
        { s with currentTool := t,
                 lanes := updateById s.lanes lid
                   (extendPoints (toActualPt s (x, y))),
                 selected := some ⟨AnnKind.lane, lid⟩ }) ∧
    (∀ tid, s.currentLane = none → s.currentTrigger = some tid →
      onMouseDown inp newId (setTool s t) x y =
        { s with currentTool := t,
                 triggers := updateById s.triggers tid
                   (extendPoints (toActualPt s (x, y))),
                 selected := some ⟨AnnKind.trigger, tid⟩ }) ∧
    (∀ (pts : List (ℚ × ℚ)) (a : ℚ × ℚ), 1 ≤ pts.length →
      fixPreviewAndPush pts a = pts.dropLast ++ [a, a] ∧
      (fixPreviewAndPush pts a).length = pts.length + 1) := by
  refine ⟨rfl, ?_, ?_, fun pts a h => fixPreviewAndPush_spec pts a h⟩
  · intro lid hl
    unfold onMouseDown
    rw [if_pos (Or.inl (by simp [setTool, hl]))]
    unfold startDrawing
    simp only [setTool]
    rw [hl]
    dsimp only
    rfl
  · intro tid hl ht
    unfold onMouseDown
    rw [if_pos (Or.inr (by simp [setTool, ht]))]
    unfold startDrawing
    simp only [setTool]
    rw [hl]
    dsimp only
    rw [ht]
    dsimp only
    rfl

/-- An in-progress trigger state for the C10 witness. -/
def c10State : EditorState :=
  { cw := 800, ch := 600, nw := 0, nh := 0,
    currentTool := AnnKind.trigger, lanes := [],
    triggers := [{ id := 5, kind := AnnKind.trigger, number := 0,
                   name := "t", color := "#FF6D00", width := 2,
                   points := [(1, 1), (2, 2)] }],
    selected := some ⟨AnnKind.trigger, 5⟩, currentLane := none,
    currentTrigger := some 5 }

/-- C10 witness: switching to the lane tool mid-draw and clicking still
extends the in-progress trigger. -/
theorem drawing_ignores_tool_witness :
    onMouseDown c5Inputs 99 (setTool c10State AnnKind.lane) 9 9 =
      { c10State with currentTool := AnnKind.lane,
                      triggers := updateById c10State.triggers 5
                        (extendPoints (toActualPt c10State (9, 9))),
                      selected := some ⟨AnnKind.trigger, 5⟩ } ∧
    fixPreviewAndPush [((1 : ℚ), (1 : ℚ)), (2, 2)] (9, 9) =
      [(1, 1), (9, 9), (9, 9)] :=
  ⟨(drawing_ignores_tool c10State c5Inputs 99 AnnKind.lane 9 9).2.2.1 5
      rfl rfl,
   by
    have h := ((drawing_ignores_tool c10State c5Inputs 99 AnnKind.lane
      9 9).2.2.2 [((1 : ℚ), (1 : ℚ)), (2, 2)] (9, 9) (by simp)).1
    simpa using h⟩

end VTool
